import Mathlib

/-!
Verification of the sentiment-analysis core (`app/ml_service.py`) of the
Sentimental-Analysis-bot repository.

Texts are embedded as lists of characters (Python `str`), classifier scores
as rationals (Python `float` arithmetic on scores), the classifier itself as
a function parameter returning either a prediction or an error (a raised
exception), and the result cache as an insertion-ordered association list
(Python `dict` preserves insertion order).
-/

namespace MLService

/-- Python strings are modelled as lists of characters. -/
abbrev Str := List Char

/-- Characters Python `str.strip()` removes (ASCII whitespace). -/
def pyIsSpace (c : Char) : Bool :=
  c == ' ' || c == '\t' || c == '\n' || c == '\r' || c == '\x0b' || c == '\x0c'

/-- Python `str.strip()`: drop whitespace from both ends. -/
def pyStrip (s : Str) : Str :=
  ((s.dropWhile pyIsSpace).reverse.dropWhile pyIsSpace).reverse

/-- Python `str.lower()` on one character, for the ASCII and Cyrillic
ranges occurring in this program. -/
def pyCharLower (c : Char) : Char :=
  if 'A' ≤ c ∧ c ≤ 'Z' then Char.ofNat (c.toNat + 32)
  else if 'А' ≤ c ∧ c ≤ 'Я' then Char.ofNat (c.toNat + 32)
  else if c = 'Ё' then 'ё'
  else c

/-- Python `str.lower()`. -/
def pyLower (s : Str) : Str := s.map pyCharLower

/-- Python `str.upper()` on one character, for the ASCII and Cyrillic
ranges occurring in this program. -/
def pyCharUpper (c : Char) : Char :=
  if 'a' ≤ c ∧ c ≤ 'z' then Char.ofNat (c.toNat - 32)
  else if 'а' ≤ c ∧ c ≤ 'я' then Char.ofNat (c.toNat - 32)
  else if c = 'ё' then 'Ё'
  else c

/-- Python `str.upper()`. -/
def pyUpper (s : Str) : Str := s.map pyCharUpper

/-- Does `s` start with `n`? (Helper for the Python `in` substring test.) -/
def startsWith : Str → Str → Bool
  | _, [] => true
  | [], _ :: _ => false
  | c :: s, d :: n => c == d && startsWith s n

/-- Python `needle in hay` for strings: contiguous-substring membership.
The empty needle is a substring of every string, as in Python. -/
def strContains (hay needle : Str) : Bool :=
  match hay with
  | [] => needle.isEmpty
  | _ :: t => startsWith hay needle || strContains t needle

/-- `SentimentAnalyzer._IRONY_PHRASES`: the key-phrase set for irony
detection, exactly as in the source — including its empty-string member. -/
def ironyPhrases : List Str :=
  [ "ну конечно".data
  , "ещё бы".data
  , "как же".data
  , "вот именно".data
  , "просто блестяще".data
  , "просто прекрасно".data
  , "само собой".data
  , "разумеется".data
  , "естественно".data
  , "ну ты и молодец".data
  , "спасибо, конечно".data
  , "ну да, ну да".data
  , "".data
  ]

/-- `SentimentAnalyzer._detect_irony`: any irony phrase occurs as a
substring of the lower-cased text. -/
def detectIrony (text : Str) : Bool :=
  ironyPhrases.any (fun phrase => strContains (pyLower text) phrase)

/-- `SentimentAnalyzer._LABEL_MAP`. -/
def labelMapEntries : List (Str × Str) :=
  [ ("POSITIVE".data, "positive".data)
  , ("NEGATIVE".data, "negative".data)
  , ("NEUTRAL".data, "neutral".data)
  ]

/-- `self._LABEL_MAP.get(raw_label, "neutral")` after
`raw_label = prediction["label"].upper()`. -/
def labelToSentiment (rawLabel : Str) : Str :=
  (labelMapEntries.lookup (pyUpper rawLabel)).getD "neutral".data

/-- One classifier output `{"label": ..., "score": ...}`; the score
(a Python float in the classifier contract) is embedded as a rational. -/
structure Prediction where
  label : Str
  score : ℚ
  deriving DecidableEq

/-- The external classifier `self.classifier(text)[0]`: for a given input
string it either returns a prediction or raises (modelled as an error). -/
abbrev Classifier := Str → Except Unit Prediction

/-- `SentimentResult.as_dict()`: the result payload of an analysis. -/
structure ResultDict where
  text : Str
  sentiment : Str
  confidence : ℚ
  ironyDetected : Bool
  modelUsed : Str
  deriving DecidableEq

/-- Loop body of `SentimentAnalyzer._split_sentences`: walk the text
accumulating `current_sentence`; each `.`, `!` or `?` flushes the stripped
accumulated sentence; a non-whitespace remainder is flushed at the end. -/
def splitSentencesAux : Str → Str → List Str
  | [], cur => if pyStrip cur = [] then [] else [pyStrip cur]
  | c :: rest, cur =>
      if c == '.' || c == '!' || c == '?' then
        pyStrip (cur ++ [c]) :: splitSentencesAux rest []
      else
        splitSentencesAux rest (cur ++ [c])

/-- `SentimentAnalyzer._split_sentences`. -/
def splitSentences (text : Str) : List Str :=
  splitSentencesAux text []

/-- The per-unit classification loop of `_analyze_long_text`: classify each
non-empty unit, truncated to its first 1000 characters; a unit whose
classification raises is skipped (`except ... continue`). -/
def classifyUnits (c : Classifier) (sentences : List Str) : List Prediction :=
  sentences.filterMap (fun s =>
    if (pyStrip s).length > 0 then (c (s.take 1000)).toOption else none)

/-- `sum(1 for r in results if "POSITIVE" in r["label"].upper())`. -/
def posCount (results : List Prediction) : ℤ :=
  ((results.filter (fun r => strContains (pyUpper r.label) "POSITIVE".data)).length : ℤ)

/-- `sum(1 for r in results if "NEGATIVE" in r["label"].upper())`. -/
def negCount (results : List Prediction) : ℤ :=
  ((results.filter (fun r => strContains (pyUpper r.label) "NEGATIVE".data)).length : ℤ)

/-- `neutral_count = len(results) - positive_count - negative_count`
(Python integers are signed, so this lives in ℤ). -/
def neuCount (results : List Prediction) : ℤ :=
  (results.length : ℤ) - posCount results - negCount results

/-- The dominant-sentiment resolution of `_analyze_long_text`. -/
def aggregateSentiment (results : List Prediction) : Str :=
  if posCount results > negCount results ∧ posCount results > neuCount results then
    "positive".data
  else if negCount results > posCount results ∧ negCount results > neuCount results then
    "negative".data
  else
    "neutral".data

/-- `total_score / len(results)` — the mean per-unit score. -/
def aggregateConfidence (results : List Prediction) : ℚ :=
  (results.map (fun r => r.score)).sum / (results.length : ℚ)

/-- `SentimentAnalyzer._analyze_long_text`: split into sentence units,
classify each, and aggregate; if no unit succeeds, fall back to
`neutral` with confidence 0.5. -/
def analyzeLongText (c : Classifier) (modelName : Str) (text : Str)
    (ironyDetected : Bool) : ResultDict :=
  if (classifyUnits c (splitSentences text)).isEmpty then
    { text := text, sentiment := "neutral".data, confidence := 1/2
    , ironyDetected := ironyDetected, modelUsed := modelName }
  else
    { text := text
    , sentiment := aggregateSentiment (classifyUnits c (splitSentences text))
    , confidence := aggregateConfidence (classifyUnits c (splitSentences text))
    , ironyDetected := ironyDetected, modelUsed := modelName }

/-- `SentimentAnalyzer._analyze_with_model`: texts longer than 2000
characters go through the chunked path; otherwise the single prediction is
label-normalized and then irony-corrected (flip positive to negative and
attenuate confidence to `max(0.1, confidence * 0.5)`). -/
def analyzeWithModel (c : Classifier) (modelName : Str) (text : Str)
    (ironyDetected : Bool) : Except Unit ResultDict :=
  if text.length > 2000 then
    Except.ok (analyzeLongText c modelName text ironyDetected)
  else
    match c text with
    | Except.error e => Except.error e
    | Except.ok pred =>
        if ironyDetected && (labelToSentiment pred.label == "positive".data) then
          Except.ok
            { text := text, sentiment := "negative".data
            , confidence := max (1/10) (pred.score * (1/2))
            , ironyDetected := ironyDetected, modelUsed := modelName }
        else
          Except.ok
            { text := text, sentiment := labelToSentiment pred.label
            , confidence := pred.score
            , ironyDetected := ironyDetected, modelUsed := modelName }

/-- The analyzer cache `self._cache`: a Python dict from cache keys to
result payloads, i.e. an insertion-ordered association list with unique
keys. -/
abbrev Cache := List (Str × ResultDict)

/-- Python `self._cache[cache_key] = result`: replace in place when the key
is present (keeping its position, as dicts do), else append at the end. -/
def dictInsert (d : Cache) (k : Str) (v : ResultDict) : Cache :=
  if (d.lookup k).isSome then
    d.map (fun p => if p.1 = k then (k, v) else p)
  else
    d ++ [(k, v)]

/-- `SentimentAnalyzer._save_to_cache`: when the cache has reached 1000
entries, `next(iter(self._cache))` names the first-inserted key and
`del` removes that entry — with unique dict keys this drops exactly the
head of the insertion order — then the new entry is inserted. -/
def saveToCache (d : Cache) (k : Str) (v : ResultDict) : Cache :=
  dictInsert (if d.length ≥ 1000 then d.drop 1 else d) k v

/-- The two request-fatal error kinds of `analyze`: `ValueError` for
empty input and the `RuntimeError` wrapper around model failures. -/
inductive AnalyzeError where
  | invalidInput
  | inferenceFailure
  deriving DecidableEq

/-- `SentimentAnalyzer.analyze`, with the md5 content-hash function
abstracted as the parameter `hash` (any deterministic key function):
reject empty/whitespace-only text; return a cache hit unchanged; otherwise
detect irony, run the model (errors wrapped as the inference failure), and
store the result in the cache. The cache state is threaded explicitly. -/
def analyze (hash : Str → Str) (c : Classifier) (modelName : Str)
    (st : Cache) (text : Str) : Except AnalyzeError ResultDict × Cache :=
  if text = [] ∨ pyStrip text = [] then
    (Except.error AnalyzeError.invalidInput, st)
  else
    match st.lookup (hash text) with
    | some cached => (Except.ok cached, st)
    | none =>
        match analyzeWithModel c modelName text (detectIrony text) with
        | Except.error _ => (Except.error AnalyzeError.inferenceFailure, st)
        | Except.ok r => (Except.ok r, saveToCache st (hash text) r)

/-- The identity key function, a concrete stand-in for the md5 hex digest
in witnesses (the code only needs the key function to be deterministic). -/
def idHash : Str → Str := fun t => t

/-- A concrete classifier that always answers POSITIVE with score 0.9. -/
def cPos : Classifier :=
  fun _ => Except.ok { label := "POSITIVE".data, score := 9/10 }

/-- A concrete classifier that always answers NEGATIVE with score 0.8. -/
def cNeg : Classifier :=
  fun _ => Except.ok { label := "NEGATIVE".data, score := 8/10 }

/-- A concrete classifier whose every call raises. -/
def cFail : Classifier := fun _ => Except.error ()

/-- A concrete model name. -/
def mname : Str := "m".data

/-- A concrete text of 2011 characters (hence on the chunked path) whose
first sentence contains the irony phrase `ну конечно`. -/
def ironyLong : Str :=
  "ну конечно.".data ++ (List.replicate 1000 "а.".data).flatten

/-- The sentiment of a successful analysis, `none` on error (used to state
facts at concrete inputs without forcing rational arithmetic). -/
def okSentiment : Except AnalyzeError ResultDict → Option Str
  | Except.ok r => some r.sentiment
  | Except.error _ => none

/-- The irony flag of a successful analysis, `none` on error. -/
def okIronyFlag : Except AnalyzeError ResultDict → Option Bool
  | Except.ok r => some r.ironyDetected
  | Except.error _ => none

/-- Folding a sequence of analyze calls over the cache state. -/
def runBatch (hash : Str → Str) (c : Classifier) (modelName : Str)
    (st : Cache) (ts : List Str) : Cache :=
  ts.foldl (fun s t => (analyze hash c modelName s t).2) st

section CacheLemmas

theorem lookup_append_of_none {β : Type} {k : Str} {d1 d2 : List (Str × β)}
    (h : d1.lookup k = none) : (d1 ++ d2).lookup k = d2.lookup k := by
  induction d1 with
  | nil => simp
  | cons a t ih =>
      simp only [List.lookup] at h ⊢
      cases hk : (k == a.1) with
      | true => simp [hk] at h
      | false =>
          simp only [hk] at h ⊢
          exact ih h

theorem lookup_cons_of_eq {β : Type} {k x : Str} {y : β} {t : List (Str × β)}
    (hk : (k == x) = true) : List.lookup k ((x, y) :: t) = some y := by
  simp only [List.lookup, hk]

theorem lookup_cons_of_ne {β : Type} {k x : Str} {y : β} {t : List (Str × β)}
    (hk : (k == x) = false) : List.lookup k ((x, y) :: t) = List.lookup k t := by
  simp only [List.lookup, hk]

theorem lookup_drop_of_none {β : Type} {k : Str} {d : List (Str × β)}
    (h : d.lookup k = none) : (d.drop 1).lookup k = none := by
  match d with
  | [] => exact h
  | (x, y) :: t =>
      cases hk : (k == x) with
      | true =>
          rw [lookup_cons_of_eq hk] at h
          exact Option.noConfusion h
      | false =>
          rw [List.drop_one, List.tail_cons]
          rw [lookup_cons_of_ne hk] at h
          exact h

theorem lookup_dictInsert_self {k : Str} {d : Cache} {v : ResultDict}
    (h : d.lookup k = none) : (dictInsert d k v).lookup k = some v := by
  unfold dictInsert
  rw [if_neg (by simp [h])]
  rw [lookup_append_of_none h]
  simp [List.lookup]

theorem lookup_saveToCache_self {k : Str} {d : Cache} {v : ResultDict}
    (h : d.lookup k = none) : (saveToCache d k v).lookup k = some v := by
  unfold saveToCache
  by_cases hlen : d.length ≥ 1000
  · rw [if_pos hlen]
    exact lookup_dictInsert_self (lookup_drop_of_none h)
  · rw [if_neg hlen]
    exact lookup_dictInsert_self h

end CacheLemmas

/-- Claim C5: analyzing an empty or whitespace-only text fails with the
invalid-input error for every classifier (so before any model
interaction), and returns the cache exactly as it was. -/
theorem analyze_invalid_input (hash : Str → Str) (c : Classifier)
    (modelName : Str) (st : Cache) (t : Str)
    (h : ∀ ch ∈ t, pyIsSpace ch = true) :
    analyze hash c modelName st t =
      (Except.error AnalyzeError.invalidInput, st) := by
  have hstrip : pyStrip t = [] := by
    unfold pyStrip
    have hd : t.dropWhile pyIsSpace = [] := List.dropWhile_eq_nil_iff.mpr h
    simp [hd]
  unfold analyze
  rw [if_pos (Or.inr hstrip)]

/-- Claim C5 witness: a whitespace-only input on a sample cache. -/
theorem analyze_invalid_input_witness :
    (∀ ch ∈ ("  \t".data : Str), pyIsSpace ch = true) ∧
      analyze (fun t => t) (fun _ => Except.error ()) "m".data [] "  \t".data =
        (Except.error AnalyzeError.invalidInput, []) :=
  ⟨by decide, analyze_invalid_input _ _ _ _ _ (by decide)⟩

/-- Claim C3: a successful analyze call is idempotent — repeating it with
the identical text returns the identical payload and leaves the cache
unchanged, and does so for an arbitrary second classifier, so the second
call never consults the model. -/
theorem analyze_idempotent (hash : Str → Str) (c c2 : Classifier)
    (modelName : Str) (st : Cache) (t : Str) (r : ResultDict) (st2 : Cache)
    (h : analyze hash c modelName st t = (Except.ok r, st2)) :
    analyze hash c2 modelName st2 t = (Except.ok r, st2) := by
  unfold analyze at h ⊢
  split
  · rename_i hempty
    rw [if_pos hempty] at h
    simp at h
  · rename_i hne
    rw [if_neg hne] at h
    cases hl : st.lookup (hash t) with
    | some cached =>
        rw [hl] at h
        simp only [Prod.mk.injEq, Except.ok.injEq] at h
        obtain ⟨hr, hst⟩ := h
        subst hst
        simp [hl, hr]
    | none =>
        rw [hl] at h
        cases hm : analyzeWithModel c modelName t (detectIrony t) with
        | error e =>
            rw [hm] at h
            simp at h
        | ok res =>
            rw [hm] at h
            simp only [Prod.mk.injEq, Except.ok.injEq] at h
            obtain ⟨hr, hst⟩ := h
            subst hr
            subst hst
            simp [lookup_saveToCache_self hl]

/-- Claim C3 witness: a short positive text analyzed twice from the empty
cache, the second call with a classifier that always fails. -/
theorem analyze_idempotent_witness :
    analyze (fun t => t) (fun _ => Except.error ()) "m".data
        (saveToCache [] "привет".data
          { text := "привет".data, sentiment := "negative".data
          , confidence := max (1/10) ((9:ℚ)/10 * (1/2)), ironyDetected := true
          , modelUsed := "m".data })
        "привет".data =
      (Except.ok
          { text := "привет".data, sentiment := "negative".data
          , confidence := max (1/10) ((9:ℚ)/10 * (1/2)), ironyDetected := true
          , modelUsed := "m".data },
        saveToCache [] "привет".data
          { text := "привет".data, sentiment := "negative".data
          , confidence := max (1/10) ((9:ℚ)/10 * (1/2)), ironyDetected := true
          , modelUsed := "m".data }) :=
  analyze_idempotent (fun t => t)
    (fun _ => Except.ok { label := "positive".data, score := (9:ℚ)/10 })
    (fun _ => Except.error ()) "m".data [] "привет".data _ _ rfl

theorem dictInsert_length_le {d : Cache} {k : Str} {v : ResultDict} :
    (dictInsert d k v).length ≤ d.length + 1 := by
  unfold dictInsert
  split
  · simp
  · simp

theorem saveToCache_length_le {d : Cache} {k : Str} {v : ResultDict}
    (h : d.length ≤ 1000) : (saveToCache d k v).length ≤ 1000 := by
  unfold saveToCache
  by_cases hlen : d.length ≥ 1000
  · rw [if_pos hlen]
    calc (dictInsert (d.drop 1) k v).length
        ≤ (d.drop 1).length + 1 := dictInsert_length_le
      _ ≤ 1000 := by
          simp only [List.length_drop]
          omega
  · rw [if_neg hlen]
    calc (dictInsert d k v).length ≤ d.length + 1 := dictInsert_length_le
      _ ≤ 1000 := by omega

theorem analyze_cache_length_le (hash : Str → Str) (c : Classifier)
    (modelName : Str) (st : Cache) (t : Str) (h : st.length ≤ 1000) :
    ((analyze hash c modelName st t).2).length ≤ 1000 := by
  unfold analyze
  split
  · exact h
  · cases hl : st.lookup (hash t) with
    | some cached => exact h
    | none =>
        cases hm : analyzeWithModel c modelName t (detectIrony t) with
        | error e => exact h
        | ok r => exact saveToCache_length_le h

theorem runBatch_length_le (hash : Str → Str) (c : Classifier)
    (modelName : Str) (ts : List Str) (st : Cache) (h : st.length ≤ 1000) :
    (runBatch hash c modelName st ts).length ≤ 1000 := by
  induction ts generalizing st with
  | nil => exact h
  | cons t rest ih =>
      exact ih _ (analyze_cache_length_le hash c modelName st t h)

/-- Claim C4: the cache never exceeds its 1000-entry capacity over any
sequence of analyze calls from the empty cache, a single analyze call
preserves the capacity bound, and an insert of a fresh key into a cache at
capacity first evicts exactly the single oldest-inserted entry — the head
of the insertion order, irrespective of lookups (strict FIFO). -/
theorem cache_capacity_fifo (hash : Str → Str) (c : Classifier)
    (modelName : Str) (st : Cache) (t : Str) (ts : List Str) (k : Str)
    (v : ResultDict) :
    (st.length ≤ 1000 → ((analyze hash c modelName st t).2).length ≤ 1000) ∧
    (runBatch hash c modelName [] ts).length ≤ 1000 ∧
    (st.length = 1000 → st.lookup k = none →
      saveToCache st k v = st.drop 1 ++ [(k, v)]) := by
  refine ⟨analyze_cache_length_le hash c modelName st t,
    runBatch_length_le hash c modelName ts [] (by simp), ?_⟩
  intro hlen hmiss
  unfold saveToCache
  rw [if_pos (by omega)]
  unfold dictInsert
  rw [if_neg (Option.not_isSome_iff_eq_none.mpr (lookup_drop_of_none hmiss))]

/-- A placeholder payload used to populate sample caches in witnesses. -/
def dummyResult : ResultDict :=
  { text := [], sentiment := "neutral".data, confidence := 1/2
  , ironyDetected := false, modelUsed := [] }

/-- A sample cache filled to capacity with 1000 pairwise distinct
single-character keys. -/
def bigCache : Cache :=
  (List.range 1000).map (fun i => ([Char.ofNat (1040 + i)], dummyResult))

set_option maxRecDepth 1000000 in
set_option maxHeartbeats 1000000 in
/-- Claim C4 witness: a full 1000-entry cache with pairwise distinct keys;
inserting a fresh key drops exactly the first-inserted entry. -/
theorem cache_capacity_fifo_witness :
    bigCache.length = 1000 ∧
    List.lookup [Char.ofNat 3000] bigCache = none ∧
    saveToCache bigCache [Char.ofNat 3000] dummyResult =
      bigCache.drop 1 ++ [([Char.ofNat 3000], dummyResult)] :=
  ⟨by simp [bigCache], by decide,
    (cache_capacity_fifo (fun t => t) (fun _ => Except.error ()) [] bigCache []
        [] [Char.ofNat 3000] dummyResult).2.2
      (by simp [bigCache]) (by decide)⟩

/-- Claim C10: whenever analyze fails — invalid input or wrapped inference
failure — the returned cache is exactly the input cache: the store step is
only reached after a successful model analysis. -/
theorem analyze_error_atomic (hash : Str → Str) (c : Classifier)
    (modelName : Str) (st : Cache) (t : Str) (e : AnalyzeError)
    (h : (analyze hash c modelName st t).1 = Except.error e) :
    (analyze hash c modelName st t).2 = st := by
  unfold analyze at h ⊢
  split
  · rfl
  · rename_i hne
    rw [if_neg hne] at h
    split
    · rfl
    · rename_i key hmiss
      rw [hmiss] at h
      simp only at h ⊢
      split
      · rfl
      · rename_i r hok
        rw [hok] at h
        simp at h

/-- Claim C10 witness: a failing classifier on a short text leaves a sample
one-entry cache untouched. -/
theorem analyze_error_atomic_witness :
    ((analyze (fun t => t) (fun _ => Except.error ()) "m".data
        [("к".data, { text := "к".data, sentiment := "neutral".data
                    , confidence := 1/2, ironyDetected := true
                    , modelUsed := "m".data })] "абв".data).1 =
      Except.error AnalyzeError.inferenceFailure) ∧
    ((analyze (fun t => t) (fun _ => Except.error ()) "m".data
        [("к".data, { text := "к".data, sentiment := "neutral".data
                    , confidence := 1/2, ironyDetected := true
                    , modelUsed := "m".data })] "абв".data).2 =
      [("к".data, { text := "к".data, sentiment := "neutral".data
                  , confidence := 1/2, ironyDetected := true
                  , modelUsed := "m".data })]) :=
  ⟨rfl, analyze_error_atomic _ _ _ _ _ AnalyzeError.inferenceFailure rfl⟩

theorem strContains_nil_needle (hay : Str) : strContains hay [] = true := by
  cases hay with
  | nil => rfl
  | cons c t => simp [strContains, startsWith]

theorem detectIrony_const_true (t : Str) : detectIrony t = true := by
  unfold detectIrony
  rw [List.any_eq_true]
  exact ⟨[], by decide, strContains_nil_needle _⟩

/-- Claim C1: the irony-phrase set contains the empty string, and the
empty string is a substring of every text, so `_detect_irony` — and hence
the `irony_detected` field of every successful analyze result — is `true`
for every input, including the specification's example text, whose result
is moreover flipped to `negative`; the spec promises `irony_detected =
False` (and `positive`) there. -/
theorem irony_detection_degenerate :
    ([] : Str) ∈ ironyPhrases ∧
    (∀ t : Str, detectIrony t = true) ∧
    okIronyFlag (analyze idHash cPos mname []
        "Я очень счастлив сегодня!".data).1 = some true ∧
    okSentiment (analyze idHash cPos mname []
        "Я очень счастлив сегодня!".data).1 = some ("negative".data) :=
  ⟨by decide, detectIrony_const_true, by decide, by decide⟩

theorem analyze_not_empty {t : Str} (hne : pyStrip t ≠ []) :
    ¬(t = [] ∨ pyStrip t = []) := by
  rintro (rfl | h2)
  · exact hne rfl
  · exact hne h2

theorem analyze_miss_ok {hash : Str → Str} {c : Classifier}
    {modelName : Str} {st : Cache} {t : Str} {r : ResultDict}
    (hne : pyStrip t ≠ []) (hmiss : st.lookup (hash t) = none)
    (hok : analyzeWithModel c modelName t (detectIrony t) = Except.ok r) :
    analyze hash c modelName st t =
      (Except.ok r, saveToCache st (hash t) r) := by
  unfold analyze
  rw [if_neg (analyze_not_empty hne)]
  simp only [hmiss, hok]

theorem analyze_miss_err {hash : Str → Str} {c : Classifier}
    {modelName : Str} {st : Cache} {t : Str} {e : Unit}
    (hne : pyStrip t ≠ []) (hmiss : st.lookup (hash t) = none)
    (herr : analyzeWithModel c modelName t (detectIrony t) = Except.error e) :
    analyze hash c modelName st t =
      (Except.error AnalyzeError.inferenceFailure, st) := by
  unfold analyze
  rw [if_neg (analyze_not_empty hne)]
  simp only [hmiss, herr]

theorem splitAux_nu (rest : Str) :
    splitSentencesAux ("ну конечно.".data ++ rest) [] =
      "ну конечно.".data :: splitSentencesAux rest [] := rfl

theorem splitAux_a (rest : Str) :
    splitSentencesAux ("а.".data ++ rest) [] =
      "а.".data :: splitSentencesAux rest [] := rfl

theorem splitAux_flatten_replicate (n : Nat) :
    splitSentencesAux (List.replicate n "а.".data).flatten [] =
      List.replicate n "а.".data := by
  induction n with
  | zero => rfl
  | succ k ih =>
      rw [List.replicate_succ, List.flatten_cons, splitAux_a, ih,
        ← List.replicate_succ]

theorem splitSentences_ironyLong :
    splitSentences ironyLong =
      "ну конечно.".data :: List.replicate 1000 "а.".data := by
  unfold ironyLong splitSentences
  rw [splitAux_nu, splitAux_flatten_replicate]

theorem flatten_replicate_length (n : Nat) :
    ((List.replicate n "а.".data).flatten).length = 2 * n := by
  induction n with
  | zero => rfl
  | succ k ih =>
      rw [List.replicate_succ, List.flatten_cons, List.length_append, ih,
        show ("а.".data).length = 2 from rfl]
      omega

theorem ironyLong_length : ironyLong.length = 2011 := by
  unfold ironyLong
  rw [List.length_append, flatten_replicate_length,
    show ("ну конечно.".data).length = 11 from rfl]

theorem classifyUnits_cPos_nu (ss : List Str) :
    classifyUnits cPos ("ну конечно.".data :: ss) =
      { label := "POSITIVE".data, score := 9/10 } :: classifyUnits cPos ss :=
  rfl

theorem classifyUnits_cPos_a (ss : List Str) :
    classifyUnits cPos ("а.".data :: ss) =
      { label := "POSITIVE".data, score := 9/10 } :: classifyUnits cPos ss :=
  rfl

theorem classifyUnits_cPos_replicate (n : Nat) :
    classifyUnits cPos (List.replicate n "а.".data) =
      List.replicate n { label := "POSITIVE".data, score := 9/10 } := by
  induction n with
  | zero => rfl
  | succ k ih =>
      rw [List.replicate_succ, classifyUnits_cPos_a, ih, ← List.replicate_succ]

theorem classifyUnits_cPos_ironyLong :
    classifyUnits cPos (splitSentences ironyLong) =
      List.replicate 1001 { label := "POSITIVE".data, score := 9/10 } := by
  rw [splitSentences_ironyLong, classifyUnits_cPos_nu,
    classifyUnits_cPos_replicate, ← List.replicate_succ]

theorem filter_replicate_of_true {p : Prediction → Bool} {x : Prediction}
    (n : Nat) (hx : p x = true) :
    (List.replicate n x).filter p = List.replicate n x := by
  induction n with
  | zero => rfl
  | succ k ih =>
      rw [List.replicate_succ, List.filter_cons_of_pos hx, ih,
        ← List.replicate_succ]

theorem filter_replicate_of_false {p : Prediction → Bool} {x : Prediction}
    (n : Nat) (hx : p x = false) :
    (List.replicate n x).filter p = [] := by
  induction n with
  | zero => rfl
  | succ k ih =>
      rw [List.replicate_succ, List.filter_cons_of_neg (by simp [hx]), ih]

theorem aggregateSentiment_pos_replicate (n : Nat) (hn : 0 < n) :
    aggregateSentiment
        (List.replicate n { label := "POSITIVE".data, score := 9/10 }) =
      "positive".data := by
  have hpos : posCount
      (List.replicate n { label := "POSITIVE".data, score := 9/10 }) =
      (n : ℤ) := by
    unfold posCount
    rw [filter_replicate_of_true n (by decide)]
    simp
  have hneg : negCount
      (List.replicate n { label := "POSITIVE".data, score := 9/10 }) =
      0 := by
    unfold negCount
    rw [filter_replicate_of_false n (by decide)]
    simp
  have hneu : neuCount
      (List.replicate n { label := "POSITIVE".data, score := 9/10 }) =
      0 := by
    unfold neuCount
    rw [hpos, hneg]
    simp
  unfold aggregateSentiment
  rw [hpos, hneg, hneu]
  rw [if_pos (by constructor <;> exact_mod_cast hn)]

theorem pyStrip_ironyLong_ne : pyStrip ironyLong ≠ [] := by
  unfold pyStrip
  intro h
  have hd : ironyLong.dropWhile pyIsSpace = ironyLong := by
    rw [show ironyLong = 'н' :: ("у конечно.".data ++
        (List.replicate 1000 "а.".data).flatten) from rfl]
    exact List.dropWhile_cons_of_neg (by decide)
  rw [hd, List.reverse_eq_nil_iff] at h
  have hall := List.dropWhile_eq_nil_iff.mp h
  have hn : pyIsSpace 'н' = true := by
    apply hall
    rw [List.mem_reverse]
    rw [show ironyLong = 'н' :: ("у конечно.".data ++
        (List.replicate 1000 "а.".data).flatten) from rfl]
    exact List.mem_cons_self _ _
  exact absurd hn (by decide)

theorem analyzeLongText_cPos_ironyLong (b : Bool) :
    analyzeLongText cPos mname ironyLong b =
      { text := ironyLong, sentiment := "positive".data
      , confidence := aggregateConfidence
          (List.replicate 1001 { label := "POSITIVE".data, score := 9/10 })
      , ironyDetected := b, modelUsed := mname } := by
  unfold analyzeLongText
  rw [if_neg (by rw [classifyUnits_cPos_ironyLong]; decide)]
  rw [classifyUnits_cPos_ironyLong, aggregateSentiment_pos_replicate 1001
    (by norm_num)]

theorem analyze_cPos_ironyLong :
    analyze idHash cPos mname [] ironyLong =
      (Except.ok
        { text := ironyLong, sentiment := "positive".data
        , confidence := aggregateConfidence
            (List.replicate 1001 { label := "POSITIVE".data, score := 9/10 })
        , ironyDetected := detectIrony ironyLong, modelUsed := mname },
        saveToCache [] (idHash ironyLong)
          { text := ironyLong, sentiment := "positive".data
          , confidence := aggregateConfidence
              (List.replicate 1001 { label := "POSITIVE".data, score := 9/10 })
          , ironyDetected := detectIrony ironyLong, modelUsed := mname }) := by
  have hok : analyzeWithModel cPos mname ironyLong (detectIrony ironyLong) =
      Except.ok
        { text := ironyLong, sentiment := "positive".data
        , confidence := aggregateConfidence
            (List.replicate 1001 { label := "POSITIVE".data, score := 9/10 })
        , ironyDetected := detectIrony ironyLong, modelUsed := mname } := by
    unfold analyzeWithModel
    rw [if_pos (by rw [ironyLong_length]; norm_num)]
    rw [analyzeLongText_cPos_ironyLong]
  exact analyze_miss_ok pyStrip_ironyLong_ne rfl hok

theorem strContains_of_startsWith {l n : Str} (h : startsWith l n = true) :
    strContains l n = true := by
  cases l with
  | nil =>
      cases n with
      | nil => rfl
      | cons d m => exact absurd h (by simp [startsWith])
  | cons c t =>
      unfold strContains
      rw [h]
      rfl

/-- Claim C2 counterexample: a 2011-character text containing the irony
phrase `ну конечно`, analyzed by a classifier that always answers POSITIVE
— irony is detected and the model resolves positive, yet the final
sentiment stays `positive` instead of being flipped to `negative`: the
long-text path applies no irony correction. -/
theorem long_text_irony_not_corrected :
    ironyLong.length > 2000 ∧
    strContains (pyLower ironyLong) "ну конечно".data = true ∧
    detectIrony ironyLong = true ∧
    okIronyFlag (analyze idHash cPos mname [] ironyLong).1 = some true ∧
    okSentiment (analyze idHash cPos mname [] ironyLong).1 =
      some ("positive".data) := by
  refine ⟨by rw [ironyLong_length]; norm_num, ?_,
    detectIrony_const_true _, ?_, ?_⟩
  · apply strContains_of_startsWith
    show startsWith (pyLower ("ну конечно.".data ++
      (List.replicate 1000 "а.".data).flatten)) "ну конечно".data = true
    unfold pyLower
    rw [List.map_append]
    exact rfl
  · rw [analyze_cPos_ironyLong, detectIrony_const_true]
    rfl
  · rw [analyze_cPos_ironyLong]
    rfl

/-- Claim C2 (amended): irony correction applies exactly on the short-text
path — there, irony plus a positive resolution flips the sentiment to
negative with confidence `max(0.1, raw * 0.5)`, and a non-positive
resolution is returned exactly as resolved — while on the long-text path
the aggregated result is returned with no irony correction at all: its
sentiment and confidence do not depend on the irony flag. -/
theorem irony_correction_short_path_only (hash : Str → Str) (c : Classifier)
    (modelName : Str) (st : Cache) (t : Str) (pred : Prediction) (b : Bool)
    (hne : pyStrip t ≠ []) (hmiss : st.lookup (hash t) = none) :
    (t.length ≤ 2000 → c t = Except.ok pred → detectIrony t = true →
      labelToSentiment pred.label = "positive".data →
      (analyze hash c modelName st t).1 =
        Except.ok { text := t, sentiment := "negative".data
                  , confidence := max (1/10) (pred.score * (1/2))
                  , ironyDetected := true, modelUsed := modelName }) ∧
    (t.length ≤ 2000 → c t = Except.ok pred →
      labelToSentiment pred.label ≠ "positive".data →
      (analyze hash c modelName st t).1 =
        Except.ok { text := t, sentiment := labelToSentiment pred.label
                  , confidence := pred.score
                  , ironyDetected := detectIrony t, modelUsed := modelName }) ∧
    (t.length > 2000 →
      (analyze hash c modelName st t).1 =
        Except.ok (analyzeLongText c modelName t (detectIrony t))) ∧
    ((analyzeLongText c modelName t b).sentiment =
        (analyzeLongText c modelName t false).sentiment ∧
      (analyzeLongText c modelName t b).confidence =
        (analyzeLongText c modelName t false).confidence) := by
  refine ⟨?_, ?_, ?_, ?_⟩
  · intro hlen hc hir hpos
    have hok : analyzeWithModel c modelName t (detectIrony t) =
        Except.ok { text := t, sentiment := "negative".data
                  , confidence := max (1/10) (pred.score * (1/2))
                  , ironyDetected := true, modelUsed := modelName } := by
      unfold analyzeWithModel
      rw [if_neg (by omega), hc, hir]
      simp [hpos]
    rw [analyze_miss_ok hne hmiss hok]
  · intro hlen hc hpos
    have hok : analyzeWithModel c modelName t (detectIrony t) =
        Except.ok { text := t, sentiment := labelToSentiment pred.label
                  , confidence := pred.score
                  , ironyDetected := detectIrony t, modelUsed := modelName } := by
      unfold analyzeWithModel
      rw [if_neg (by omega), hc]
      simp [hpos]
    rw [analyze_miss_ok hne hmiss hok]
  · intro hlen
    have hok : analyzeWithModel c modelName t (detectIrony t) =
        Except.ok (analyzeLongText c modelName t (detectIrony t)) := by
      unfold analyzeWithModel
      rw [if_pos hlen]
    rw [analyze_miss_ok hne hmiss hok]
  · unfold analyzeLongText
    split
    · exact ⟨rfl, rfl⟩
    · exact ⟨rfl, rfl⟩

set_option maxRecDepth 1000000 in
set_option maxHeartbeats 2000000 in
/-- Claim C2 (amended) witness: the short-path flip on a short ironic text
with a positive classification, the short-path identity on a negative
classification, and the long path on the 2011-character ironic text. -/
theorem irony_correction_short_path_only_witness :
    (analyze idHash cPos mname [] "привет".data).1 =
      Except.ok { text := "привет".data, sentiment := "negative".data
                , confidence := max (1/10) ((9:ℚ)/10 * (1/2))
                , ironyDetected := true, modelUsed := mname } ∧
    (analyze idHash cNeg mname [] "привет".data).1 =
      Except.ok { text := "привет".data
                , sentiment := labelToSentiment ("NEGATIVE".data)
                , confidence := (8:ℚ)/10
                , ironyDetected := detectIrony "привет".data
                , modelUsed := mname } ∧
    (analyze idHash cPos mname [] ironyLong).1 =
      Except.ok (analyzeLongText cPos mname ironyLong
        (detectIrony ironyLong)) :=
  ⟨(irony_correction_short_path_only idHash cPos mname [] "привет".data
      { label := "POSITIVE".data, score := 9/10 } false
      (by decide) (by decide)).1
      (by decide) rfl (by decide) (by decide),
   (irony_correction_short_path_only idHash cNeg mname [] "привет".data
      { label := "NEGATIVE".data, score := 8/10 } false
      (by decide) (by decide)).2.1
      (by decide) rfl (by decide),
   (irony_correction_short_path_only idHash cPos mname [] ironyLong
      { label := "POSITIVE".data, score := 9/10 } false
      pyStrip_ironyLong_ne rfl).2.2.1
      (by rw [ironyLong_length]; norm_num)⟩

theorem classifyUnits_agree {c c2 : Classifier} (ss : List Str)
    (hag : ∀ s : Str, s.length ≤ 1000 → c2 s = c s) :
    classifyUnits c2 ss = classifyUnits c ss := by
  unfold classifyUnits
  induction ss with
  | nil => rfl
  | cons s rest ih =>
      rw [List.filterMap_cons, List.filterMap_cons,
        hag (s.take 1000) (List.length_take_le _ _), ih]

theorem analyzeWithModel_long {c : Classifier} {modelName t : Str} {b : Bool}
    (hlen : t.length > 2000) :
    analyzeWithModel c modelName t b =
      Except.ok (analyzeLongText c modelName t b) := by
  unfold analyzeWithModel
  rw [if_pos hlen]

theorem analyzeLongText_of_results {c : Classifier} {modelName t : Str}
    {b : Bool} (hres : classifyUnits c (splitSentences t) ≠ []) :
    analyzeLongText c modelName t b =
      { text := t
      , sentiment := aggregateSentiment (classifyUnits c (splitSentences t))
      , confidence := aggregateConfidence (classifyUnits c (splitSentences t))
      , ironyDetected := b, modelUsed := modelName } := by
  unfold analyzeLongText
  rw [if_neg (by simpa using hres)]

/-- Claim C6: on a cache miss for a text longer than 2000 characters with
at least one successfully classified sentence unit, the result carries the
arithmetic mean of the per-unit scores as confidence and the strict
plurality among the positive/negative/neutral counts as sentiment (neutral
when no label has a strict plurality); every unit handed to the classifier
is truncated to at most 1000 characters, so the outcome only depends on the
classifier's behaviour on inputs of length at most 1000. -/
theorem long_text_aggregation (hash : Str → Str) (c : Classifier)
    (modelName : Str) (st : Cache) (t : Str)
    (hne : pyStrip t ≠ []) (hmiss : st.lookup (hash t) = none)
    (hlen : t.length > 2000)
    (hres : classifyUnits c (splitSentences t) ≠ []) :
    (analyze hash c modelName st t).1 =
      Except.ok
        { text := t
        , sentiment := aggregateSentiment (classifyUnits c (splitSentences t))
        , confidence := aggregateConfidence (classifyUnits c (splitSentences t))
        , ironyDetected := detectIrony t, modelUsed := modelName } ∧
    aggregateConfidence (classifyUnits c (splitSentences t)) =
      ((classifyUnits c (splitSentences t)).map (fun r => r.score)).sum /
        ((classifyUnits c (splitSentences t)).length : ℚ) ∧
    (posCount (classifyUnits c (splitSentences t)) >
        negCount (classifyUnits c (splitSentences t)) ∧
      posCount (classifyUnits c (splitSentences t)) >
        neuCount (classifyUnits c (splitSentences t)) →
      aggregateSentiment (classifyUnits c (splitSentences t)) =
        "positive".data) ∧
    (negCount (classifyUnits c (splitSentences t)) >
        posCount (classifyUnits c (splitSentences t)) ∧
      negCount (classifyUnits c (splitSentences t)) >
        neuCount (classifyUnits c (splitSentences t)) →
      aggregateSentiment (classifyUnits c (splitSentences t)) =
        "negative".data) ∧
    (¬(posCount (classifyUnits c (splitSentences t)) >
          negCount (classifyUnits c (splitSentences t)) ∧
        posCount (classifyUnits c (splitSentences t)) >
          neuCount (classifyUnits c (splitSentences t))) →
      ¬(negCount (classifyUnits c (splitSentences t)) >
          posCount (classifyUnits c (splitSentences t)) ∧
        negCount (classifyUnits c (splitSentences t)) >
          neuCount (classifyUnits c (splitSentences t))) →
      aggregateSentiment (classifyUnits c (splitSentences t)) =
        "neutral".data) ∧
    (∀ s ∈ splitSentences t, (s.take 1000).length ≤ 1000) ∧
    (∀ c2 : Classifier, (∀ s : Str, s.length ≤ 1000 → c2 s = c s) →
      classifyUnits c2 (splitSentences t) =
        classifyUnits c (splitSentences t)) := by
  refine ⟨?_, rfl, ?_, ?_, ?_, ?_, ?_⟩
  · rw [analyze_miss_ok hne hmiss
      (by rw [analyzeWithModel_long hlen, analyzeLongText_of_results hres])]
  · intro h
    unfold aggregateSentiment
    rw [if_pos h]
  · intro h
    unfold aggregateSentiment
    rw [if_neg (by omega), if_pos h]
  · intro h1 h2
    unfold aggregateSentiment
    rw [if_neg h1, if_neg h2]
  · intro s _
    exact List.length_take_le _ _
  · intro c2 hag
    exact classifyUnits_agree _ hag

theorem posCount_replicate_cPos (n : Nat) :
    posCount (List.replicate n { label := "POSITIVE".data, score := 9/10 }) =
      (n : ℤ) := by
  unfold posCount
  rw [filter_replicate_of_true n (by decide)]
  simp

theorem negCount_replicate_cPos (n : Nat) :
    negCount (List.replicate n { label := "POSITIVE".data, score := 9/10 }) =
      0 := by
  unfold negCount
  rw [filter_replicate_of_false n (by decide)]
  simp

theorem neuCount_replicate_cPos (n : Nat) :
    neuCount (List.replicate n { label := "POSITIVE".data, score := 9/10 }) =
      0 := by
  unfold neuCount
  rw [posCount_replicate_cPos, negCount_replicate_cPos]
  simp

/-- Claim C6 witness: the 2011-character text of 1001 units under the
always-POSITIVE classifier — a strict positive plurality. -/
theorem long_text_aggregation_witness :
    (analyze idHash cPos mname [] ironyLong).1 =
      Except.ok
        { text := ironyLong
        , sentiment :=
            aggregateSentiment (classifyUnits cPos (splitSentences ironyLong))
        , confidence :=
            aggregateConfidence (classifyUnits cPos (splitSentences ironyLong))
        , ironyDetected := detectIrony ironyLong, modelUsed := mname } ∧
    aggregateSentiment (classifyUnits cPos (splitSentences ironyLong)) =
      "positive".data :=
  ⟨(long_text_aggregation idHash cPos mname [] ironyLong
      pyStrip_ironyLong_ne rfl (by rw [ironyLong_length]; norm_num)
      (by rw [classifyUnits_cPos_ironyLong]; decide)).1,
   (long_text_aggregation idHash cPos mname [] ironyLong
      pyStrip_ironyLong_ne rfl (by rw [ironyLong_length]; norm_num)
      (by rw [classifyUnits_cPos_ironyLong]; decide)).2.2.1
     (by
       rw [classifyUnits_cPos_ironyLong, posCount_replicate_cPos,
         negCount_replicate_cPos, neuCount_replicate_cPos]
       norm_num)⟩

theorem classifyUnits_skip_failed {c : Classifier} {s : Str} (ss : List Str)
    (herr : c (s.take 1000) = Except.error ()) :
    classifyUnits c (s :: ss) = classifyUnits c ss := by
  unfold classifyUnits
  rw [List.filterMap_cons, herr]
  simp [Except.toOption]

theorem classifyUnits_cFail (ss : List Str) : classifyUnits cFail ss = [] := by
  induction ss with
  | nil => rfl
  | cons s rest ih =>
      rw [classifyUnits_skip_failed rest rfl, ih]

/-- Claim C7: a classifier error on the short-text path is wrapped as the
inference failure and propagated (the cache untouched); on the long-text
path a failing unit is skipped with the remaining units still processed, a
long text never yields the inference failure, and when every unit fails the
call still succeeds with exactly sentiment neutral and confidence 0.5
(which is then cached). -/
theorem failure_propagation (hash : Str → Str) (c : Classifier)
    (modelName : Str) (st : Cache) (t s : Str) (ss : List Str)
    (hne : pyStrip t ≠ []) (hmiss : st.lookup (hash t) = none) :
    (t.length ≤ 2000 → c t = Except.error () →
      analyze hash c modelName st t =
        (Except.error AnalyzeError.inferenceFailure, st)) ∧
    (c (s.take 1000) = Except.error () →
      classifyUnits c (s :: ss) = classifyUnits c ss) ∧
    (t.length > 2000 → classifyUnits c (splitSentences t) = [] →
      analyze hash c modelName st t =
        (Except.ok
          { text := t, sentiment := "neutral".data, confidence := 1/2
          , ironyDetected := detectIrony t, modelUsed := modelName },
         saveToCache st (hash t)
          { text := t, sentiment := "neutral".data, confidence := 1/2
          , ironyDetected := detectIrony t, modelUsed := modelName })) ∧
    (t.length > 2000 →
      (analyze hash c modelName st t).1 ≠
        Except.error AnalyzeError.inferenceFailure) := by
  refine ⟨?_, fun herr => classifyUnits_skip_failed ss herr, ?_, ?_⟩
  · intro hlen herr
    apply analyze_miss_err hne hmiss
    unfold analyzeWithModel
    rw [if_neg (by omega), herr]
  · intro hlen hall
    apply analyze_miss_ok hne hmiss
    rw [analyzeWithModel_long hlen]
    unfold analyzeLongText
    rw [if_pos (by simp [hall])]
  · intro hlen
    rw [analyze_miss_ok hne hmiss (analyzeWithModel_long hlen)]
    simp

/-- Claim C7 witness: the always-failing classifier on a short text (the
wrapped failure, cache untouched) and on the 2011-character text (success
with the neutral 0.5 fallback). -/
theorem failure_propagation_witness :
    analyze idHash cFail mname [] "абв".data =
      (Except.error AnalyzeError.inferenceFailure, []) ∧
    classifyUnits cFail ("а".data :: []) = classifyUnits cFail [] ∧
    analyze idHash cFail mname [] ironyLong =
      (Except.ok
        { text := ironyLong, sentiment := "neutral".data, confidence := 1/2
        , ironyDetected := detectIrony ironyLong, modelUsed := mname },
       saveToCache [] (idHash ironyLong)
        { text := ironyLong, sentiment := "neutral".data, confidence := 1/2
        , ironyDetected := detectIrony ironyLong, modelUsed := mname }) :=
  ⟨(failure_propagation idHash cFail mname [] "абв".data "а".data []
      (by decide) rfl).1 (by decide) rfl,
   (failure_propagation idHash cFail mname [] "абв".data "а".data []
      (by decide) rfl).2.1 rfl,
   (failure_propagation idHash cFail mname [] ironyLong "а".data []
      pyStrip_ironyLong_ne rfl).2.2.1
     (by rw [ironyLong_length]; norm_num) (classifyUnits_cFail _)⟩

/-- The closed sentiment enumeration of the result contract. -/
def threeSentiments : List Str :=
  ["positive".data, "negative".data, "neutral".data]

/-- Every payload stored in the cache carries an enumerated sentiment. -/
def cacheSentimentsOK (st : Cache) : Prop :=
  ∀ p ∈ st, p.2.sentiment ∈ threeSentiments

theorem lookup_mem {β : Type} {k : Str} {v : β} {d : List (Str × β)}
    (h : d.lookup k = some v) : ∃ kk, (kk, v) ∈ d := by
  induction d with
  | nil => exact absurd h (by simp)
  | cons a rest ih =>
      match a with
      | (x, y) =>
          cases hk : (k == x) with
          | true =>
              rw [lookup_cons_of_eq hk] at h
              injection h with h
              exact ⟨x, by rw [← h]; exact List.mem_cons_self _ _⟩
          | false =>
              rw [lookup_cons_of_ne hk] at h
              obtain ⟨kk, hkk⟩ := ih h
              exact ⟨kk, List.mem_cons_of_mem _ hkk⟩

theorem mem_dictInsert {p : Str × ResultDict} {d1 d : Cache} {k : Str}
    {v : ResultDict} (hsub : ∀ q : Str × ResultDict, q ∈ d1 → q ∈ d)
    (h : p ∈ dictInsert d1 k v) : p ∈ d ∨ p.2 = v := by
  unfold dictInsert at h
  split at h
  · rw [List.mem_map] at h
    obtain ⟨q, hq, hpq⟩ := h
    by_cases hqk : q.1 = k
    · rw [if_pos hqk] at hpq
      right
      rw [← hpq]
    · rw [if_neg hqk] at hpq
      exact Or.inl (hpq ▸ hsub q hq)
  · rw [List.mem_append] at h
    cases h with
    | inl h => exact Or.inl (hsub _ h)
    | inr h =>
        right
        rw [List.mem_singleton] at h
        rw [h]

theorem mem_saveToCache {p : Str × ResultDict} {d : Cache} {k : Str}
    {v : ResultDict} (h : p ∈ saveToCache d k v) : p ∈ d ∨ p.2 = v := by
  unfold saveToCache at h
  split at h
  · exact mem_dictInsert (fun q hq => List.mem_of_mem_drop hq) h
  · exact mem_dictInsert (fun q hq => hq) h

theorem lookup_labelMap_mem {x v : Str}
    (h : labelMapEntries.lookup x = some v) : v ∈ threeSentiments := by
  unfold labelMapEntries at h
  cases h1 : (x == "POSITIVE".data) with
  | true =>
      rw [lookup_cons_of_eq h1] at h
      injection h with h
      rw [← h]
      decide
  | false =>
      rw [lookup_cons_of_ne h1] at h
      cases h2 : (x == "NEGATIVE".data) with
      | true =>
          rw [lookup_cons_of_eq h2] at h
          injection h with h
          rw [← h]
          decide
      | false =>
          rw [lookup_cons_of_ne h2] at h
          cases h3 : (x == "NEUTRAL".data) with
          | true =>
              rw [lookup_cons_of_eq h3] at h
              injection h with h
              rw [← h]
              decide
          | false =>
              rw [lookup_cons_of_ne h3] at h
              exact absurd h (by simp)

theorem labelToSentiment_mem (raw : Str) :
    labelToSentiment raw ∈ threeSentiments := by
  unfold labelToSentiment
  cases hl : labelMapEntries.lookup (pyUpper raw) with
  | none => decide
  | some v =>
      rw [Option.getD_some]
      exact lookup_labelMap_mem hl

theorem aggregateSentiment_mem (results : List Prediction) :
    aggregateSentiment results ∈ threeSentiments := by
  unfold aggregateSentiment
  split
  · decide
  · split
    · decide
    · decide

theorem analyzeWithModel_sentiment_mem {c : Classifier} {modelName t : Str}
    {b : Bool} {r : ResultDict}
    (h : analyzeWithModel c modelName t b = Except.ok r) :
    r.sentiment ∈ threeSentiments := by
  unfold analyzeWithModel at h
  split at h
  · injection h with h
    rw [← h]
    unfold analyzeLongText
    split
    · show "neutral".data ∈ threeSentiments
      decide
    · exact aggregateSentiment_mem _
  · cases hcls : c t with
    | error e =>
        rw [hcls] at h
        exact absurd h (by simp)
    | ok pred =>
        rw [hcls] at h
        split at h
        · exact absurd h (by simp)
        · split at h
          · injection h with h
            rw [← h]
            show "negative".data ∈ threeSentiments
            decide
          · injection h with h
            rw [← h]
            exact labelToSentiment_mem _

/-- Claim C8: the sentiment of every successful analyze result — from a
cache of well-formed payloads — is one of the three enumerated values and
never the raw model label; the cache keeps only such payloads; the
short-path resolution sends the case-normalized raw label through the
closed translation table, and any raw label whose upper-case form is
absent from the table resolves to neutral. -/
theorem sentiment_always_enumerated (hash : Str → Str) (c : Classifier)
    (modelName : Str) (st : Cache) (t : Str) (hst : cacheSentimentsOK st) :
    (∀ r, (analyze hash c modelName st t).1 = Except.ok r →
        r.sentiment ∈ threeSentiments) ∧
    cacheSentimentsOK (analyze hash c modelName st t).2 ∧
    (∀ raw : Str, labelMapEntries.lookup (pyUpper raw) = none →
        labelToSentiment raw = "neutral".data) ∧
    (∀ raw : Str, labelToSentiment raw ∈ threeSentiments) := by
  have hmain : ∀ r, (analyze hash c modelName st t).1 = Except.ok r →
      r.sentiment ∈ threeSentiments := by
    intro r hr
    unfold analyze at hr
    split at hr
    · exact absurd hr (by simp)
    · cases hl : st.lookup (hash t) with
      | some cached =>
          rw [hl] at hr
          injection hr with hr
          obtain ⟨kk, hkk⟩ := lookup_mem hl
          rw [← hr]
          exact hst (kk, cached) hkk
      | none =>
          rw [hl] at hr
          cases hm : analyzeWithModel c modelName t (detectIrony t) with
          | error e =>
              rw [hm] at hr
              exact absurd hr (by simp)
          | ok res =>
              rw [hm] at hr
              injection hr with hr
              rw [← hr]
              exact analyzeWithModel_sentiment_mem hm
  refine ⟨hmain, ?_, ?_, labelToSentiment_mem⟩
  · unfold analyze
    split
    · exact hst
    · cases hl : st.lookup (hash t) with
      | some cached => exact hst
      | none =>
          cases hm : analyzeWithModel c modelName t (detectIrony t) with
          | error e => exact hst
          | ok res =>
              intro p hp
              cases mem_saveToCache hp with
              | inl hin => exact hst p hin
              | inr hv =>
                  rw [hv]
                  exact analyzeWithModel_sentiment_mem hm
  · intro raw hnone
    unfold labelToSentiment
    rw [hnone]
    rfl

/-- Claim C8 witness: a classifier answering the out-of-table label
`Speech` on a short text from the empty cache. -/
theorem sentiment_always_enumerated_witness :
    (∀ r, (analyze idHash
          (fun _ => Except.ok { label := "Speech".data, score := 6/10 })
          mname [] "абв".data).1 = Except.ok r →
        r.sentiment ∈ threeSentiments) ∧
    labelMapEntries.lookup (pyUpper "Speech".data) = none ∧
    labelToSentiment "Speech".data = "neutral".data :=
  ⟨(sentiment_always_enumerated idHash
      (fun _ => Except.ok { label := "Speech".data, score := 6/10 })
      mname [] "абв".data (by intro p hp; exact absurd hp (by simp))).1,
   by decide,
   (sentiment_always_enumerated idHash
      (fun _ => Except.ok { label := "Speech".data, score := 6/10 })
      mname [] "абв".data (by intro p hp; exact absurd hp (by simp))).2.2.1
     "Speech".data (by decide)⟩

/-- The external classifier contract: every returned score lies in
the closed unit interval. -/
def classifierScoresOK (c : Classifier) : Prop :=
  ∀ s p, c s = Except.ok p → 0 ≤ p.score ∧ p.score ≤ 1

/-- Every payload stored in the cache carries a confidence in [0, 1]. -/
def cacheConfidencesOK (st : Cache) : Prop :=
  ∀ p ∈ st, 0 ≤ p.2.confidence ∧ p.2.confidence ≤ 1

theorem classifyUnits_scores_bounded {c : Classifier}
    (hc : classifierScoresOK c) (ss : List Str) :
    ∀ p ∈ classifyUnits c ss, 0 ≤ p.score ∧ p.score ≤ 1 := by
  intro p hp
  unfold classifyUnits at hp
  rw [List.mem_filterMap] at hp
  obtain ⟨s, _, hsome⟩ := hp
  split at hsome
  · cases hcs : c (s.take 1000) with
    | error e =>
        rw [hcs] at hsome
        exact absurd hsome (by simp [Except.toOption])
    | ok q =>
        rw [hcs] at hsome
        simp only [Except.toOption, Option.some.injEq] at hsome
        rw [← hsome]
        exact hc _ _ hcs
  · exact absurd hsome (by simp)

theorem aggregateConfidence_bounds {results : List Prediction}
    (hres : results ≠ [])
    (hb : ∀ p ∈ results, 0 ≤ p.score ∧ p.score ≤ 1) :
    0 ≤ aggregateConfidence results ∧ aggregateConfidence results ≤ 1 := by
  unfold aggregateConfidence
  have hlen : (0:ℚ) < (results.length : ℚ) := by
    have h0 : 0 < results.length := List.length_pos.mpr hres
    exact_mod_cast h0
  constructor
  · apply div_nonneg _ (le_of_lt hlen)
    apply List.sum_nonneg
    intro x hx
    rw [List.mem_map] at hx
    obtain ⟨q, hq, hqx⟩ := hx
    rw [← hqx]
    exact (hb q hq).1
  · rw [div_le_one hlen]
    calc (results.map (fun r => r.score)).sum
        ≤ (results.map (fun r => r.score)).length • (1:ℚ) := by
          apply List.sum_le_card_nsmul
          intro x hx
          rw [List.mem_map] at hx
          obtain ⟨q, hq, hqx⟩ := hx
          rw [← hqx]
          exact (hb q hq).2
      _ = (results.length : ℚ) := by
          rw [List.length_map, nsmul_eq_mul, mul_one]

theorem analyzeWithModel_confidence_bounds {c : Classifier}
    {modelName t : Str} {b : Bool} {r : ResultDict}
    (hc : classifierScoresOK c)
    (h : analyzeWithModel c modelName t b = Except.ok r) :
    0 ≤ r.confidence ∧ r.confidence ≤ 1 := by
  unfold analyzeWithModel at h
  split at h
  · injection h with h
    rw [← h]
    unfold analyzeLongText
    split
    · show 0 ≤ (1:ℚ)/2 ∧ (1:ℚ)/2 ≤ 1
      norm_num
    · rename_i hne'
      exact aggregateConfidence_bounds
        (by intro hnil; rw [hnil] at hne'; exact hne' rfl)
        (classifyUnits_scores_bounded hc _)
  · cases hcls : c t with
    | error e =>
        rw [hcls] at h
        exact absurd h (by simp)
    | ok pred =>
        rw [hcls] at h
        have hb := hc _ _ hcls
        split at h
        · exact absurd h (by simp)
        · rename_i pred2 heq
          injection heq with heq
          subst heq
          split at h
          · injection h with h
            rw [← h]
            show 0 ≤ max ((1:ℚ)/10) (pred.score * (1/2)) ∧
              max ((1:ℚ)/10) (pred.score * (1/2)) ≤ 1
            constructor
            · exact le_trans (by norm_num) (le_max_left _ _)
            · apply max_le (by norm_num)
              nlinarith [hb.1, hb.2]
          · injection h with h
            rw [← h]
            exact hb

/-- Claim C9: assuming the classifier honours its contract of returning
scores in [0, 1], every successful analyze call — short path, irony-
corrected short path, long-path mean, or all-units-failed fallback — from
a cache of payloads with confidences in [0, 1] yields a confidence in
[0, 1], and the cache keeps only such payloads. -/
theorem confidence_in_unit_interval (hash : Str → Str) (c : Classifier)
    (modelName : Str) (st : Cache) (t : Str)
    (hc : classifierScoresOK c) (hst : cacheConfidencesOK st) :
    (∀ r, (analyze hash c modelName st t).1 = Except.ok r →
        0 ≤ r.confidence ∧ r.confidence ≤ 1) ∧
    cacheConfidencesOK (analyze hash c modelName st t).2 := by
  constructor
  · intro r hr
    unfold analyze at hr
    split at hr
    · exact absurd hr (by simp)
    · cases hl : st.lookup (hash t) with
      | some cached =>
          rw [hl] at hr
          injection hr with hr
          obtain ⟨kk, hkk⟩ := lookup_mem hl
          rw [← hr]
          exact hst (kk, cached) hkk
      | none =>
          rw [hl] at hr
          cases hm : analyzeWithModel c modelName t (detectIrony t) with
          | error e =>
              rw [hm] at hr
              exact absurd hr (by simp)
          | ok res =>
              rw [hm] at hr
              injection hr with hr
              rw [← hr]
              exact analyzeWithModel_confidence_bounds hc hm
  · unfold analyze
    split
    · exact hst
    · cases hl : st.lookup (hash t) with
      | some cached => exact hst
      | none =>
          cases hm : analyzeWithModel c modelName t (detectIrony t) with
          | error e => exact hst
          | ok res =>
              intro p hp
              cases mem_saveToCache hp with
              | inl hin => exact hst p hin
              | inr hv =>
                  rw [hv]
                  exact analyzeWithModel_confidence_bounds hc hm

/-- Claim C9 witness: the always-POSITIVE score-0.9 classifier — which
honours the contract — on a short text from the empty cache. -/
theorem confidence_in_unit_interval_witness :
    (∀ r, (analyze idHash cPos mname [] "привет".data).1 = Except.ok r →
        0 ≤ r.confidence ∧ r.confidence ≤ 1) ∧
    cacheConfidencesOK (analyze idHash cPos mname [] "привет".data).2 :=
  confidence_in_unit_interval idHash cPos mname [] "привет".data
    (by
      intro s p h
      have hp : ({ label := "POSITIVE".data, score := 9/10 } : Prediction)
          = p := by
        simpa [cPos] using h
      rw [← hp]
      norm_num)
    (by intro p hp; exact absurd hp (by simp))

end MLService

